import Mathlib

/-!
Verification development for the IAPchat multi-repository message replication
core: a shallow embedding of `multi_repo_handler.py`, `database.py` and
`server.py`, together with theorems settling the specification's claims.

Modelling conventions:
* JSON (de)serialization is elided: remote file contents are the envelope
  structure itself; remote commit shas are modelled as the decimal string of a
  per-repository commit counter.
* Each remote repository carries an `ok` flag modelling reachability
  (network/auth/404 failures of any call against it).
* Clock readings (`datetime.now()` / SQLite `datetime('now')`) are explicit
  parameters, one per source-level reading.
* SQLite TEXT values are `String`; the BINARY collation (memcmp on UTF-8
  bytes), like Python string comparison, is code-point lexicographic order on
  the character list, embedded as `str_lt` below.
-/

namespace IAPchat

/-- Lexicographic order on the character lists of two strings: SQLite BINARY
collation and Python `str` comparison (UTF-8 byte order coincides with
code-point order). Definitionally equal to Mathlib's `String.lt`. -/
def str_lt (a b : String) : Prop := a.data < b.data

instance : DecidableRel str_lt := fun a b => inferInstanceAs (Decidable (a.data < b.data))

instance {ε α : Type} [DecidableEq ε] [DecidableEq α] : DecidableEq (Except ε α) := fun a b =>
  match a, b with
  | .ok x, .ok y =>
    if h : x = y then isTrue (by rw [h]) else isFalse (fun hc => h (Except.ok.inj hc))
  | .error x, .error y =>
    if h : x = y then isTrue (by rw [h]) else isFalse (fun hc => h (Except.error.inj hc))
  | .ok _, .error _ => isFalse (fun hc => Except.noConfusion hc)
  | .error _, .ok _ => isFalse (fun hc => Except.noConfusion hc)

/-- The message envelope `{id, content, timestamp}` (`message_data` in
`multi_repo_handler.store_message`). -/
structure Envelope where
  id : Nat
  content : String
  timestamp : String
deriving DecidableEq

/-- A file stored in a remote repository: envelope content plus the revision
token GitHub reports for it (blob sha, abstracted to a counter). -/
structure RemoteFile where
  env : Envelope
  revision : Nat
deriving DecidableEq

/-- State of one remote repository: reachability, the file store (path to
file), and the branch head commit counter. -/
structure Remote where
  ok : Bool
  files : List (String × RemoteFile)
  head : Nat
deriving DecidableEq

/-- One entry of the repository registry (`config/repositories.json`), as in
`MultiRepoHandler`: owner, name, branch, message_path. -/
structure RepoConfig where
  owner : String
  name : String
  branch : String
  message_path : String
deriving DecidableEq

/-- The `"owner/name"` key under which a target is reported. -/
def RepoConfig.key (c : RepoConfig) : String := c.owner ++ "/" ++ c.name

/-- Python `f-string` building the deterministic per-message file path:
message_path plus `/message_<id>.json`. -/
def message_file_path (c : RepoConfig) (id : Nat) : String :=
  c.message_path ++ "/message_" ++ toString id ++ ".json"

/-- The envelope built once per fan-out in `store_message`, stamped with the
replication-time clock reading `now`. -/
def mk_envelope (content : String) (id : Nat) (now : String) : Envelope :=
  ⟨id, content, now⟩

/-- Python `repo.create_file(path, message, content, branch)`: fails when the
repository is unreachable or the path already exists (GitHub answers 422); on
success the file is added with a fresh revision and the branch head advances by
one commit. -/
def Remote.create_file (r : Remote) (p : String) (e : Envelope) : Except String Remote :=
  if r.ok then
    match r.files.lookup p with
    | some _ => .error "path already exists"
    | none => .ok { r with files := r.files ++ [(p, ⟨e, 0⟩)], head := r.head + 1 }
  else .error "repository not reachable"

/-- Loop body of `MultiRepoHandler.store_message` for one target: try
`create_file`, then read the branch head sha; any exception is caught
(`except Exception`) and the target contributes nothing. -/
def store_to_target (c : RepoConfig) (r : Remote) (content : String) (id : Nat)
    (now : String) : Remote × Option String :=
  match r.create_file (message_file_path c id) (mk_envelope content id now) with
  | .error _ => (r, none)
  | .ok r' => (r', some (toString r'.head))

/-- Python `MultiRepoHandler.store_message`: fan the envelope out to every
registered target, collecting `"owner/name" → commit sha` for the targets that
succeed; per-target failures are caught and skipped, never propagated. The
single `datetime.now()` reading taken before the loop is `now`. -/
def store_message : List (RepoConfig × Remote) → String → Nat → String →
    List (RepoConfig × Remote) × List (String × String)
  | [], _, _, _ => ([], [])
  | (c, r) :: ts, content, id, now =>
    let pr := store_to_target c r content id now
    let rest := store_message ts content id now
    ((c, pr.1) :: rest.1,
      match pr.2 with
      | some sha => (c.key, sha) :: rest.2
      | none => rest.2)

/-- Directory-listing filter of `_fetch_messages_from_repo`: the contents API
of `message_path` lists the files below that directory; only names ending in
`.json` are kept (string tests are on the character lists). -/
def in_message_dir (dir p : String) : Bool :=
  (dir ++ "/").data.isPrefixOf p.data && ".json".data.isSuffixOf p.data

/-- A message envelope fetched back from a remote, tagged with
`message['repository'] = "owner/name"`. -/
structure FetchedMessage where
  id : Nat
  content : String
  timestamp : String
  repository : String
deriving DecidableEq

/-- Python `MultiRepoHandler._fetch_messages_from_repo`: on any error (404,
network) an empty list; otherwise every JSON file under the configured path,
parsed as an envelope and tagged with its source repository. -/
def fetch_messages_from_repo (c : RepoConfig) (r : Remote) : List FetchedMessage :=
  if r.ok then
    (r.files.filter (fun p => in_message_dir c.message_path p.1)).map
      (fun p => ⟨p.2.env.id, p.2.env.content, p.2.env.timestamp, c.key⟩)
  else []

/-- Ascending comparison used by `all_messages.sort(key=lambda x: x['timestamp'])`. -/
def fm_le (a b : FetchedMessage) : Prop :=
  str_lt a.timestamp b.timestamp ∨ a.timestamp = b.timestamp

instance : DecidableRel fm_le := fun a b =>
  inferInstanceAs (Decidable (str_lt a.timestamp b.timestamp ∨ a.timestamp = b.timestamp))

/-- Python `MultiRepoHandler.get_all_messages`: fetch from every registered
repository (results concatenated in registry order), then stable-sort ascending
by the envelope timestamp. The local database is never consulted: the function
does not even receive it. -/
def get_all_messages (ts : List (RepoConfig × Remote)) : List FetchedMessage :=
  List.insertionSort fm_le (ts.flatMap (fun p => fetch_messages_from_repo p.1 p.2))

/-- Python `MultiRepoHandler.add_repository`: validate that the remote resolves
(`gh.get_repo`, raising otherwise), then append the new entry only when the
exact quadruple is not already present (`if new_repo not in self.repos_config`).
`avail` models which `"owner/name"` repositories the remote service resolves. -/
def add_repository_config (regs : List RepoConfig) (avail : String → Bool)
    (owner name branch message_path : String) : Except String (List RepoConfig) :=
  if avail (owner ++ "/" ++ name) then
    .ok (if (⟨owner, name, branch, message_path⟩ : RepoConfig) ∈ regs then regs
         else regs ++ [⟨owner, name, branch, message_path⟩])
  else .error "repository not found or not accessible"

/-- Python `MultiRepoHandler.remove_repository`: drop every entry whose
(owner, name) matches. -/
def remove_repository_config (regs : List RepoConfig) (owner name : String) :
    List RepoConfig :=
  regs.filter (fun r => !(r.owner == owner && r.name == name))

/-- An administrative operation on the repository registry. -/
inductive RegistryOp where
  | add (owner name branch message_path : String)
  | remove (owner name : String)

/-- Apply one registry operation; an `add` whose remote validation fails raises
and leaves the registry unchanged. -/
def apply_registry_op (avail : String → Bool) (regs : List RepoConfig) :
    RegistryOp → List RepoConfig
  | .add o n b p =>
    match add_repository_config regs avail o n b p with
    | .ok regs' => regs'
    | .error _ => regs
  | .remove o n => remove_repository_config regs o n

/-- Apply a sequence of registry operations. -/
def apply_registry_ops (avail : String → Bool) (regs : List RepoConfig)
    (ops : List RegistryOp) : List RepoConfig :=
  ops.foldl (apply_registry_op avail) regs

/-- A row of the `messages` table. -/
structure MessageRow where
  id : Nat
  content : String
  timestamp : String
  created_at : String
deriving DecidableEq

/-- A row of the `repositories` table (its `created_at` column is read by no
embedded query and is omitted). -/
structure RepoRow where
  id : Nat
  owner : String
  name : String
deriving DecidableEq

/-- A row of the `message_commits` table (its `created_at` column is read by no
embedded query and is omitted). -/
structure CommitRow where
  id : Nat
  message_id : Nat
  repository_id : Nat
  commit_hash : String
deriving DecidableEq

/-- The SQLite store of `database.py`: the three tables, rows kept in rowid
order, plus the AUTOINCREMENT counters. -/
structure ChatDatabase where
  messages : List MessageRow
  repositories : List RepoRow
  message_commits : List CommitRow
  next_message_id : Nat
  next_repository_id : Nat
  next_commit_id : Nat
deriving DecidableEq

/-- Python `ChatDatabase.add_repository`: `INSERT OR IGNORE` under
UNIQUE(owner, name); when the insert is ignored the existing id is selected. -/
def ChatDatabase.add_repository (db : ChatDatabase) (owner name : String) :
    ChatDatabase × Nat :=
  match db.repositories.find? (fun r => r.owner == owner && r.name == name) with
  | some r => (db, r.id)
  | none =>
    ({ db with
        repositories := db.repositories ++ [⟨db.next_repository_id, owner, name⟩],
        next_repository_id := db.next_repository_id + 1 },
      db.next_repository_id)

/-- Python `ChatDatabase.add_message`: plain INSERT returning `lastrowid`;
`created` is SQLite's own `datetime('now')` default for `created_at`. -/
def ChatDatabase.add_message (db : ChatDatabase) (content timestamp created : String) :
    ChatDatabase × Nat :=
  ({ db with
      messages := db.messages ++ [⟨db.next_message_id, content, timestamp, created⟩],
      next_message_id := db.next_message_id + 1 },
    db.next_message_id)

/-- Python `repo_path.split('/')`, character-exact on the character list. -/
def split_key (s : String) : List String :=
  (s.data.splitOn '/').map (fun cs => String.mk cs)

/-- SQL `INSERT OR REPLACE INTO message_commits` under
UNIQUE(message_id, repository_id): the conflicting row, if any, is deleted and
the new row is inserted at a fresh rowid. -/
def ChatDatabase.upsert_commit (db : ChatDatabase) (mid rid : Nat) (h : String) :
    ChatDatabase :=
  { db with
    message_commits :=
      (db.message_commits.filter
          (fun c => !(c.message_id == mid && c.repository_id == rid)))
        ++ [⟨db.next_commit_id, mid, rid, h⟩],
    next_commit_id := db.next_commit_id + 1 }

/-- One iteration of the loop in `ChatDatabase.update_message_commits`: split
the `"owner/name"` key (a key without exactly one slash makes the unpacking
raise `ValueError`), look the repository up, and upsert when it is found. -/
def ChatDatabase.update_one_commit (db : ChatDatabase) (mid : Nat)
    (kv : String × String) : Except String ChatDatabase :=
  match split_key kv.1 with
  | [owner, name] =>
    match db.repositories.find? (fun r => r.owner == owner && r.name == name) with
    | some r => .ok (db.upsert_commit mid r.id kv.2)
    | none => .ok db
  | _ => .error "ValueError: key is not owner/name"

/-- Python `ChatDatabase.update_message_commits`: the loop runs inside one
`with self.conn` transaction, so an exception rolls every upsert of the call
back — modelled by `Except.error`, the caller keeping the original database. -/
def ChatDatabase.update_message_commits (db : ChatDatabase) (mid : Nat)
    (hashes : List (String × String)) : Except String ChatDatabase :=
  hashes.foldl (fun acc kv => acc.bind (fun d => d.update_one_commit mid kv)) (.ok db)

/-- A sequence of independent `update_message_commits` requests: a request that
raises rolls its own transaction back (database unchanged) and later requests
still run. -/
def apply_records (db : ChatDatabase)
    (ops : List (Nat × List (String × String))) : ChatDatabase :=
  ops.foldl (fun d op =>
    match d.update_message_commits op.1 op.2 with
    | .ok d' => d'
    | .error _ => d) db

/-- The (message_id, repository_id) key of each ledger row. -/
def ledger_pairs (db : ChatDatabase) : List (Nat × Nat) :=
  db.message_commits.map (fun c => (c.message_id, c.repository_id))

/-- Sort order in which `ORDER BY m.timestamp DESC` is executed: the query is
satisfied by a reverse scan of `idx_messages_timestamp`, whose entries are
keyed (timestamp, rowid) ascending, so rows come out with timestamps descending
and, within equal timestamps, rowids (= message ids) descending. -/
def msg_order (a b : MessageRow) : Prop :=
  str_lt b.timestamp a.timestamp ∨ (a.timestamp = b.timestamp ∧ b.id ≤ a.id)

instance : DecidableRel msg_order := fun a b =>
  inferInstanceAs
    (Decidable (str_lt b.timestamp a.timestamp ∨ (a.timestamp = b.timestamp ∧ b.id ≤ a.id)))

/-- One output row of the three-table LEFT JOIN in `ChatDatabase.get_messages`. -/
structure JoinedRow where
  id : Nat
  content : String
  timestamp : String
  created_at : String
  owner : Option String
  name : Option String
  commit_hash : Option String
deriving DecidableEq

/-- The LEFT JOIN rows contributed by one message: its ledger rows (inner scan
via `idx_message_commits_message`, i.e. rowid order) each joined to the
`repositories` row they reference, or a single all-NULL row when the message
has no ledger entries. -/
def rows_for_message (db : ChatDatabase) (m : MessageRow) : List JoinedRow :=
  match db.message_commits.filter (fun c => c.message_id == m.id) with
  | [] => [⟨m.id, m.content, m.timestamp, m.created_at, none, none, none⟩]
  | cs => cs.map (fun c =>
      match db.repositories.find? (fun r => r.id == c.repository_id) with
      | some r =>
        ⟨m.id, m.content, m.timestamp, m.created_at, some r.owner, some r.name,
          some c.commit_hash⟩
      | none =>
        ⟨m.id, m.content, m.timestamp, m.created_at, none, none, some c.commit_hash⟩)

/-- The messages in the order the query emits them. -/
def sorted_messages (db : ChatDatabase) : List MessageRow :=
  List.insertionSort msg_order db.messages

/-- The full ordered row stream of the `get_messages` query, before LIMIT or
OFFSET are applied. -/
def joined_rows (db : ChatDatabase) : List JoinedRow :=
  (sorted_messages db).flatMap (rows_for_message db)

/-- SQL `LIMIT ? OFFSET ?` applies to the joined row stream. -/
def paged_rows (db : ChatDatabase) (limit offset : Nat) : List JoinedRow :=
  ((joined_rows db).drop offset).take limit

/-- One element of the list `ChatDatabase.get_messages` returns. -/
structure MessageOut where
  id : Nat
  content : String
  timestamp : String
  created_at : String
  repositories : List (String × String)
deriving DecidableEq

/-- Python dict assignment `d[k] = v`: overwrite the key in place, or append a
new key (dicts preserve insertion order). -/
def set_entry (l : List (String × String)) (k v : String) : List (String × String) :=
  if l.any (fun p => p.1 == k) then l.map (fun p => if p.1 == k then (k, v) else p)
  else l ++ [(k, v)]

/-- Python `if row[4] and row[5]: ...['repositories'][f"{owner}/{name}"] = row[6]`
inside the grouping loop of `get_messages` (truthiness: a NULL or empty owner
or name skips the entry; `row[6]` is non-NULL whenever both are non-NULL). -/
def add_repo_entry (mo : MessageOut) (row : JoinedRow) : MessageOut :=
  match row.owner, row.name with
  | some o, some n =>
    if o.isEmpty || n.isEmpty then mo
    else
      { mo with
        repositories := set_entry mo.repositories (o ++ "/" ++ n) (row.commit_hash.getD "") }
  | _, _ => mo

/-- One iteration of the grouping loop of `get_messages`: create the dict entry
at first sight of a message id (insertion order preserved, as for a Python
dict), then fold the row's repository columns in. -/
def insert_row (acc : List MessageOut) (row : JoinedRow) : List MessageOut :=
  if acc.any (fun mo => mo.id == row.id) then
    acc.map (fun mo => if mo.id == row.id then add_repo_entry mo row else mo)
  else acc ++ [add_repo_entry ⟨row.id, row.content, row.timestamp, row.created_at, []⟩ row]

/-- The grouping loop of `get_messages` over the fetched rows, returning
`list(messages.values())`. -/
def group_rows (rows : List JoinedRow) : List MessageOut :=
  rows.foldl insert_row []

/-- Python `ChatDatabase.get_messages(limit, offset)`. -/
def ChatDatabase.get_messages (db : ChatDatabase) (limit offset : Nat) :
    List MessageOut :=
  group_rows (paged_rows db limit offset)

/-- HTTP response of `ChatRequestHandler.handle_new_message`. -/
inductive Response where
  | badRequest (msg : String)
  | serverError (msg : String)
  | created (id : Nat) (content : String) (timestamp : String)
      (repositories : List (String × String))
deriving DecidableEq

/-- The mutable state `handle_new_message` touches: the local database and the
registered targets paired with their remote state. -/
structure ServerState where
  db : ChatDatabase
  targets : List (RepoConfig × Remote)
deriving DecidableEq

/-- Python `not message_data['content'].strip()`: true iff every character is
whitespace, so that stripping leaves the empty string (ASCII-whitespace model
of `str.strip()`). -/
def isBlank (s : String) : Bool := s.data.all Char.isWhitespace

/-- Python `ChatRequestHandler.handle_new_message`. `content` is the (possibly
absent) `'content'` field of the request body. The three clock readings are
parameters: `tDb` is the handler's `datetime.now()` (the timestamp stored with
the message and echoed in the response), `tCreated` is SQLite's
`datetime('now')` for `created_at`, and `tRepl` is the `datetime.now()` taken
inside `store_message` when stamping the mirrored envelope. -/
def handle_new_message (st : ServerState) (content : Option String)
    (tDb tCreated tRepl : String) : ServerState × Response :=
  match content with
  | none => (st, .badRequest "Message content is required")
  | some c =>
    if isBlank c then (st, .badRequest "Message content is required")
    else
      let dm := st.db.add_message c tDb tCreated
      let sm := store_message st.targets c dm.2 tRepl
      if sm.2.isEmpty then
        ({ db := dm.1, targets := sm.1 }, .created dm.2 c tDb sm.2)
      else
        match dm.1.update_message_commits dm.2 sm.2 with
        | .ok db2 => ({ db := db2, targets := sm.1 }, .created dm.2 c tDb sm.2)
        | .error e => ({ db := dm.1, targets := sm.1 }, .serverError e)

/-- Well-formedness the AUTOINCREMENT discipline guarantees for the messages
table: ids are pairwise distinct and below the next counter value. -/
def dbWF (db : ChatDatabase) : Prop :=
  (db.messages.map (fun m => m.id)).Nodup ∧ ∀ m ∈ db.messages, m.id < db.next_message_id

instance (db : ChatDatabase) : Decidable (dbWF db) :=
  inferInstanceAs (Decidable (_ ∧ _))

/-- Descending feed order claimed for `get_messages` output: timestamp
descending, ties broken by id descending. -/
def mo_lt (a b : MessageOut) : Prop :=
  str_lt b.timestamp a.timestamp ∨ (a.timestamp = b.timestamp ∧ b.id < a.id)

/-- Row-level order of the query output stream. -/
def row_le (a b : JoinedRow) : Prop :=
  str_lt b.timestamp a.timestamp ∨ (a.timestamp = b.timestamp ∧ b.id ≤ a.id)

/-- Order between an already-grouped message and a still-pending row. -/
def mix_le (mo : MessageOut) (r : JoinedRow) : Prop :=
  str_lt r.timestamp mo.timestamp ∨ (mo.timestamp = r.timestamp ∧ r.id ≤ mo.id)

/-- The (message_id, repository_id) key of one ledger row. -/
def pair_of (c : CommitRow) : Nat × Nat := (c.message_id, c.repository_id)

/-- The Bool predicate `INSERT OR REPLACE` deletes by. -/
def pair_hit (mid rid : Nat) (c : CommitRow) : Bool :=
  c.message_id == mid && c.repository_id == rid

/-- The (owner, name) key of each row of the `repositories` table. -/
def repo_keys (db : ChatDatabase) : List (String × String) :=
  db.repositories.map (fun r => (r.owner, r.name))

/-- The header (id, timestamp, content) of a grouped message; the grouping loop
only ever extends `repositories`, never these fields. -/
def hdr (mo : MessageOut) : Nat × String × String := (mo.id, mo.timestamp, mo.content)

instance : IsTrans MessageRow msg_order := ⟨by
  have sli : ∀ a b : String, str_lt a b ↔ a < b :=
    fun a b => String.lt_iff_toList_lt.symm
  intro a b c hab hbc
  rcases hab with h1 | ⟨e1, i1⟩
  · rcases hbc with h2 | ⟨e2, i2⟩
    · exact Or.inl ((sli _ _).mpr (lt_trans ((sli _ _).mp h2) ((sli _ _).mp h1)))
    · exact Or.inl (by rw [← e2]; exact h1)
  · rcases hbc with h2 | ⟨e2, i2⟩
    · exact Or.inl (by rw [e1]; exact h2)
    · exact Or.inr ⟨e1.trans e2, le_trans i2 i1⟩⟩

instance : IsTotal MessageRow msg_order := ⟨by
  have sli : ∀ a b : String, str_lt a b ↔ a < b :=
    fun a b => String.lt_iff_toList_lt.symm
  intro a b
  rcases lt_trichotomy a.timestamp b.timestamp with h | h | h
  · exact Or.inr (Or.inl ((sli _ _).mpr h))
  · rcases le_total b.id a.id with hle | hle
    · exact Or.inl (Or.inr ⟨h, hle⟩)
    · exact Or.inr (Or.inr ⟨h.symm, hle⟩)
  · exact Or.inl (Or.inl ((sli _ _).mpr h))⟩

instance : IsTrans FetchedMessage fm_le := ⟨by
  have sli : ∀ a b : String, str_lt a b ↔ a < b :=
    fun a b => String.lt_iff_toList_lt.symm
  intro a b c hab hbc
  rcases hab with h1 | e1
  · rcases hbc with h2 | e2
    · exact Or.inl ((sli _ _).mpr (lt_trans ((sli _ _).mp h1) ((sli _ _).mp h2)))
    · exact Or.inl (by rw [← e2]; exact h1)
  · rcases hbc with h2 | e2
    · exact Or.inl (by rw [e1]; exact h2)
    · exact Or.inr (e1.trans e2)⟩

instance : IsTotal FetchedMessage fm_le := ⟨by
  have sli : ∀ a b : String, str_lt a b ↔ a < b :=
    fun a b => String.lt_iff_toList_lt.symm
  intro a b
  rcases lt_trichotomy a.timestamp b.timestamp with h | h | h
  · exact Or.inl (Or.inl ((sli _ _).mpr h))
  · exact Or.inl (Or.inr h)
  · exact Or.inr (Or.inl ((sli _ _).mpr h))⟩

/-! Concrete fixtures used by witnesses and counterexamples. -/

/-- A registered target. -/
def cfg0 : RepoConfig := ⟨"alpha", "one", "main", "messages"⟩

/-- A second registered target. -/
def cfg1 : RepoConfig := ⟨"beta", "two", "main", "messages"⟩

/-- A fresh, reachable, empty remote. -/
def rem0 : Remote := ⟨true, [], 0⟩

/-- An unreachable remote. -/
def rem_bad : Remote := ⟨false, [], 0⟩

/-- The remote state of `cfg0` after message 1 is replicated to `rem0` at
clock T1. -/
def rem_filled : Remote :=
  ⟨true, [("messages/message_1.json", ⟨⟨1, "hi", "T1"⟩, 0⟩)], 1⟩

/-- A server with one message-free database and one reachable target. -/
def st1 : ServerState := ⟨⟨[], [], [], 1, 1, 1⟩, [(cfg0, rem0)]⟩

/-- A database with one message, one registered repository, and one ledger
entry for the pair (message 1, repository 1). -/
def db5 : ChatDatabase := ⟨[⟨1, "m", "T", "C"⟩], [⟨1, "alpha", "one"⟩], [⟨1, 1, 1, "h1"⟩], 2, 2, 2⟩

/-- A database with two messages where the newer message 2 is mirrored to two
repositories and the older message 1 to none. -/
def exDb : ChatDatabase :=
  ⟨[⟨1, "m1", "TA", "CA"⟩, ⟨2, "m2", "TB", "CB"⟩],
    [⟨1, "alpha", "one"⟩, ⟨2, "beta", "two"⟩],
    [⟨1, 2, 1, "h1"⟩, ⟨2, 2, 2, "h2"⟩], 3, 3, 3⟩

/-- Three messages with timestamps T1 < T2 < T3 inserted in the creation order
T2, T1, T3. -/
def db3 : ChatDatabase :=
  ⟨[⟨1, "m1", "T2", "C"⟩, ⟨2, "m2", "T1", "C"⟩, ⟨3, "m3", "T3", "C"⟩], [], [], 4, 1, 1⟩

/-- Messages 1 and 2 share a timestamp; message 3 is older. -/
def tieDb : ChatDatabase :=
  ⟨[⟨1, "m1", "T", "C"⟩, ⟨2, "m2", "T", "C"⟩, ⟨3, "m3", "S", "C"⟩], [], [], 4, 1, 1⟩

/-- A remote holding two message envelopes with timestamps T1 and T3. -/
def rem1 : Remote :=
  ⟨true, [("messages/a.json", ⟨⟨1, "m1", "T1"⟩, 0⟩),
          ("messages/c.json", ⟨⟨3, "m3", "T3"⟩, 0⟩)], 2⟩

/-- A remote holding one message envelope with timestamp T2. -/
def rem2 : Remote := ⟨true, [("messages/b.json", ⟨⟨2, "m2", "T2"⟩, 0⟩)], 1⟩

/-! Lemmas about the replication engine. -/

theorem lookup_append_none {l : List (String × RemoteFile)} {k : String} (v : RemoteFile)
    (h : l.lookup k = none) : (l ++ [(k, v)]).lookup k = some v := by
  induction l with
  | nil => simp [List.lookup]
  | cons p l ih =>
    cases hk : (k == p.1) with
    | true => simp [List.lookup, hk] at h
    | false =>
      simp only [List.lookup, hk, List.cons_append] at h ⊢
      exact ih h

theorem create_file_ok {r : Remote} {p : String} {e : Envelope} {r' : Remote}
    (h : r.create_file p e = .ok r') :
    r.ok = true ∧ r.files.lookup p = none ∧
      r' = { r with files := r.files ++ [(p, ⟨e, 0⟩)], head := r.head + 1 } := by
  unfold Remote.create_file at h
  by_cases hok : r.ok = true
  · rw [if_pos hok] at h
    cases hl : r.files.lookup p with
    | some f => rw [hl] at h; exact absurd h (by simp)
    | none =>
      rw [hl] at h
      refine ⟨hok, ?_, ?_⟩
      · simp [hl]
      · exact (Except.ok.inj h).symm
  · rw [if_neg hok] at h; exact absurd h (by simp)

theorem store_to_target_ok {c : RepoConfig} {r : Remote} {content : String} {id : Nat}
    {now : String} {r' : Remote} {sha : String}
    (h : store_to_target c r content id now = (r', some sha)) :
    r.files.lookup (message_file_path c id) = none ∧
      r' = { r with
              files := r.files ++ [(message_file_path c id, ⟨mk_envelope content id now, 0⟩)],
              head := r.head + 1 } ∧
      sha = toString (r.head + 1) := by
  unfold store_to_target at h
  cases hcf : r.create_file (message_file_path c id) (mk_envelope content id now) with
  | error e => rw [hcf] at h; exact absurd (congrArg Prod.snd h) (by simp)
  | ok r2 =>
    rw [hcf] at h
    obtain ⟨-, hl, hr2⟩ := create_file_ok hcf
    have h1 : r2 = r' := congrArg Prod.fst h
    have h2 : some (toString r2.head) = some sha := congrArg Prod.snd h
    refine ⟨hl, h1 ▸ hr2, ?_⟩
    have := Option.some.inj h2
    rw [← this, hr2]

/-! Lemmas about the commit ledger. -/

theorem update_one_commit_fields {db : ChatDatabase} {mid : Nat} {kv : String × String}
    {db' : ChatDatabase} (h : db.update_one_commit mid kv = .ok db') :
    db'.messages = db.messages ∧ db'.repositories = db.repositories := by
  unfold ChatDatabase.update_one_commit at h
  split at h
  · split at h
    · have := Except.ok.inj h
      rw [← this]
      exact ⟨rfl, rfl⟩
    · have := Except.ok.inj h
      rw [← this]
      exact ⟨rfl, rfl⟩
  · exact absurd h (by simp)

theorem foldl_bind_error {mid : Nat} {e : String} :
    ∀ hs : List (String × String),
      hs.foldl (fun (acc : Except String ChatDatabase) kv =>
          acc.bind (fun d => d.update_one_commit mid kv)) (.error e)
        = .error e := by
  intro hs
  induction hs with
  | nil => rfl
  | cons kv hs ih => rw [List.foldl_cons]; exact ih

theorem foldl_bind_fields {mid : Nat} :
    ∀ (hs : List (String × String)) (db db' : ChatDatabase),
      hs.foldl (fun (acc : Except String ChatDatabase) kv =>
          acc.bind (fun d => d.update_one_commit mid kv)) (.ok db) = .ok db' →
      db'.messages = db.messages ∧ db'.repositories = db.repositories := by
  intro hs
  induction hs with
  | nil =>
    intro db db' h
    rw [List.foldl_nil] at h
    rw [← Except.ok.inj h]; exact ⟨rfl, rfl⟩
  | cons kv hs ih =>
    intro db db' h
    rw [List.foldl_cons] at h
    cases hone : db.update_one_commit mid kv with
    | error e =>
      rw [show (Except.ok db).bind (fun d => d.update_one_commit mid kv)
            = Except.error e from hone] at h
      rw [foldl_bind_error hs] at h
      exact Except.noConfusion h
    | ok d1 =>
      rw [show (Except.ok db).bind (fun d => d.update_one_commit mid kv)
            = Except.ok d1 from hone] at h
      obtain ⟨hm, hr⟩ := ih d1 db' h
      obtain ⟨hm1, hr1⟩ := update_one_commit_fields hone
      exact ⟨hm.trans hm1, hr.trans hr1⟩

theorem update_message_commits_fields {hs : List (String × String)} {mid : Nat}
    {db db' : ChatDatabase} (h : db.update_message_commits mid hs = .ok db') :
    db'.messages = db.messages ∧ db'.repositories = db.repositories :=
  foldl_bind_fields hs db db' h

theorem upsert_commit_pairs_nodup {db : ChatDatabase} {mid rid : Nat} {h : String}
    (hn : (ledger_pairs db).Nodup) :
    (ledger_pairs (db.upsert_commit mid rid h)).Nodup := by
  unfold ledger_pairs ChatDatabase.upsert_commit at *
  rw [List.map_append]
  rw [List.nodup_append]
  refine ⟨((List.filter_sublist _).map _).nodup hn, List.nodup_singleton _, ?_⟩
  intro x hx
  simp only [List.map_cons, List.map_nil, List.mem_singleton]
  intro hx1
  obtain ⟨c, hcmem, hcx⟩ := List.mem_map.mp hx
  obtain ⟨-, hcpred⟩ := List.mem_filter.mp hcmem
  rw [hx1] at hcx
  have h1 : c.message_id = mid := (Prod.mk.injEq .. ▸ hcx).1
  have h2 : c.repository_id = rid := (Prod.mk.injEq .. ▸ hcx).2
  simp [h1, h2] at hcpred

theorem update_one_commit_pairs_nodup {db : ChatDatabase} {mid : Nat}
    {kv : String × String} {db' : ChatDatabase} (h : db.update_one_commit mid kv = .ok db')
    (hn : (ledger_pairs db).Nodup) : (ledger_pairs db').Nodup := by
  unfold ChatDatabase.update_one_commit at h
  split at h
  · split at h
    · rw [← Except.ok.inj h]
      exact upsert_commit_pairs_nodup hn
    · rw [← Except.ok.inj h]
      exact hn
  · exact absurd h (by simp)

theorem foldl_bind_pairs_nodup {mid : Nat} :
    ∀ (hs : List (String × String)) (db db' : ChatDatabase),
      hs.foldl (fun (acc : Except String ChatDatabase) kv =>
          acc.bind (fun d => d.update_one_commit mid kv)) (.ok db) = .ok db' →
      (ledger_pairs db).Nodup → (ledger_pairs db').Nodup := by
  intro hs
  induction hs with
  | nil =>
    intro db db' h hn
    rw [List.foldl_nil] at h
    rw [← Except.ok.inj h]; exact hn
  | cons kv hs ih =>
    intro db db' h hn
    rw [List.foldl_cons] at h
    cases hone : db.update_one_commit mid kv with
    | error e =>
      rw [show (Except.ok db).bind (fun d => d.update_one_commit mid kv)
            = Except.error e from hone] at h
      rw [foldl_bind_error hs] at h
      exact Except.noConfusion h
    | ok d1 =>
      rw [show (Except.ok db).bind (fun d => d.update_one_commit mid kv)
            = Except.ok d1 from hone] at h
      exact ih d1 db' h (update_one_commit_pairs_nodup hone hn)

theorem apply_records_pairs_nodup (ops : List (Nat × List (String × String))) :
    ∀ db : ChatDatabase, (ledger_pairs db).Nodup →
      (ledger_pairs (apply_records db ops)).Nodup := by
  induction ops with
  | nil => intro db hn; exact hn
  | cons op ops ih =>
    intro db hn
    unfold apply_records
    rw [List.foldl_cons]
    cases hstep : db.update_message_commits op.1 op.2 with
    | ok d' =>
      simp only [hstep]
      exact ih d' (foldl_bind_pairs_nodup op.2 db d' hstep hn)
    | error e =>
      simp only [hstep]
      exact ih db hn

/-! Claim C5. -/

/-- C5: the commit ledger records by upsert. Starting from a ledger with at
most one entry per (message_id, repository_id) pair, any sequence of record
operations preserves that uniqueness; and recording hash `hv` for a registered
repository `rr` replaces the pair's previous entry: afterwards the rows hitting
the pair carry exactly the single hash `hv`, while every other row is
untouched. -/
theorem c5_theorem (db : ChatDatabase) (hn : (ledger_pairs db).Nodup)
    (ops : List (Nat × List (String × String))) (mid : Nat) (k hv owner name : String)
    (rr : RepoRow) (hsplit : split_key k = [owner, name])
    (hfind : db.repositories.find? (fun r => r.owner == owner && r.name == name) = some rr) :
    (ledger_pairs (apply_records db ops)).Nodup ∧
    db.update_message_commits mid [(k, hv)] = .ok (db.upsert_commit mid rr.id hv) ∧
    ((db.upsert_commit mid rr.id hv).message_commits.filter (pair_hit mid rr.id)).map
        (fun c => c.commit_hash) = [hv] ∧
    (db.upsert_commit mid rr.id hv).message_commits.filter (fun c => !(pair_hit mid rr.id c))
      = db.message_commits.filter (fun c => !(pair_hit mid rr.id c)) := by
  refine ⟨apply_records_pairs_nodup ops db hn, ?_, ?_, ?_⟩
  · unfold ChatDatabase.update_message_commits
    rw [List.foldl_cons, List.foldl_nil]
    show db.update_one_commit mid (k, hv) = _
    unfold ChatDatabase.update_one_commit
    simp only [hsplit, hfind]
  · unfold ChatDatabase.upsert_commit
    simp only [List.filter_append, List.filter_filter]
    simp [pair_hit]
  · unfold ChatDatabase.upsert_commit
    simp only [List.filter_append, List.filter_filter]
    simp [pair_hit]

/-- C5, witness: re-recording a hash for the already-recorded pair
(message 1, repository 1) in `db5` keeps the per-pair uniqueness and goes
through the upsert. -/
theorem c5_witness :
    (ledger_pairs (apply_records db5 [(1, [("alpha/one", "h2")])])).Nodup ∧
    db5.update_message_commits 1 [("alpha/one", "h2")] = .ok (db5.upsert_commit 1 1 "h2") := by
  have h := c5_theorem db5 (by decide) [(1, [("alpha/one", "h2")])] 1 "alpha/one" "h2"
    "alpha" "one" ⟨1, "alpha", "one"⟩ (by decide) (by decide)
  exact ⟨h.1, h.2.1⟩

/-! Claim C8. -/

theorem add_repository_config_nodup {regs : List RepoConfig} {avail : String → Bool}
    {o n b p : String} {regs' : List RepoConfig} (hnd : regs.Nodup)
    (h : add_repository_config regs avail o n b p = .ok regs') : regs'.Nodup := by
  unfold add_repository_config at h
  split at h
  · by_cases hm : (⟨o, n, b, p⟩ : RepoConfig) ∈ regs
    · rw [if_pos hm] at h
      rw [← Except.ok.inj h]; exact hnd
    · rw [if_neg hm] at h
      rw [← Except.ok.inj h]
      rw [List.nodup_append]
      refine ⟨hnd, List.nodup_singleton _, ?_⟩
      intro x hx hx1
      rw [List.mem_singleton.mp hx1] at hx
      exact hm hx
  · exact absurd h (by simp)

theorem apply_registry_op_nodup {regs : List RepoConfig} {avail : String → Bool}
    (op : RegistryOp) (hnd : regs.Nodup) : (apply_registry_op avail regs op).Nodup := by
  cases op with
  | add o n b p =>
    show (match add_repository_config regs avail o n b p with
          | .ok regs' => regs'
          | .error _ => regs).Nodup
    cases hout : add_repository_config regs avail o n b p with
    | ok regs' => exact add_repository_config_nodup hnd hout
    | error e => exact hnd
  | remove o n => exact hnd.filter _

theorem add_repository_keys_nodup {db : ChatDatabase} (owner name : String)
    (hdb : (repo_keys db).Nodup) :
    (repo_keys (db.add_repository owner name).1).Nodup := by
  unfold ChatDatabase.add_repository
  cases hf : db.repositories.find? (fun r => r.owner == owner && r.name == name) with
  | some r => exact hdb
  | none =>
    unfold repo_keys
    simp only [List.map_append]
    rw [List.nodup_append]
    refine ⟨hdb, List.nodup_singleton _, ?_⟩
    intro x hx hx1
    simp only [List.map_cons, List.map_nil, List.mem_singleton] at hx1
    obtain ⟨r, hrmem, hrx⟩ := List.mem_map.mp hx
    have hp := List.find?_eq_none.mp hf r hrmem
    rw [hx1] at hrx
    have h1 : r.owner = owner := (Prod.mk.injEq .. ▸ hrx).1
    have h2 : r.name = name := (Prod.mk.injEq .. ▸ hrx).2
    simp [h1, h2] at hp

/-- C8, counterexample: the registry deduplicates on the full quadruple, so two
registrations sharing (owner, name) but differing in branch coexist after two
`add_repository` calls against an accessible remote — refuting the claim that
the registry never contains two entries with the same (owner, name). -/
theorem c8_counterexample :
    add_repository_config [] (fun _ => true) "o" "n" "main" "messages"
        = .ok [⟨"o", "n", "main", "messages"⟩] ∧
    add_repository_config [⟨"o", "n", "main", "messages"⟩] (fun _ => true) "o" "n" "dev" "messages"
        = .ok [⟨"o", "n", "main", "messages"⟩, ⟨"o", "n", "dev", "messages"⟩] ∧
    (⟨"o", "n", "main", "messages"⟩ : RepoConfig).owner
        = (⟨"o", "n", "dev", "messages"⟩ : RepoConfig).owner ∧
    (⟨"o", "n", "main", "messages"⟩ : RepoConfig).name
        = (⟨"o", "n", "dev", "messages"⟩ : RepoConfig).name ∧
    (⟨"o", "n", "main", "messages"⟩ : RepoConfig) ≠ ⟨"o", "n", "dev", "messages"⟩ := by
  decide

/-- C8, amended: a registry entry is identified by its full
(owner, name, branch, storage path) quadruple, not by (owner, name) alone.
After any sequence of add/remove operations the registry contains no two
identical quadruples (an exact duplicate registration is a no-op, and removal
only shrinks the registry), but two entries sharing (owner, name) while
differing in branch or storage path may coexist. The database `repositories`
table, in contrast, does keep (owner, name) unique across `add_repository`. -/
theorem c8_theorem (regs : List RepoConfig) (avail : String → Bool)
    (ops : List RegistryOp) (hnd : regs.Nodup) (db : ChatDatabase)
    (owner name : String) (hdb : (repo_keys db).Nodup) :
    (apply_registry_ops avail regs ops).Nodup ∧
    (repo_keys (db.add_repository owner name).1).Nodup := by
  refine ⟨?_, add_repository_keys_nodup owner name hdb⟩
  induction ops generalizing regs with
  | nil => exact hnd
  | cons op ops ih =>
    unfold apply_registry_ops
    rw [List.foldl_cons]
    exact ih (apply_registry_op avail regs op) (apply_registry_op_nodup op hnd)

/-- C8, witness: the amended theorem at a concrete operation sequence that
registers the same (owner, name) under two branches, and a concrete database
registration. -/
theorem c8_witness :
    (apply_registry_ops (fun _ => true) []
        [RegistryOp.add "o" "n" "main" "messages",
         RegistryOp.add "o" "n" "dev" "messages"]).Nodup ∧
    (repo_keys ((⟨[], [], [], 1, 1, 1⟩ : ChatDatabase).add_repository "o" "n").1).Nodup :=
  c8_theorem [] (fun _ => true)
    [RegistryOp.add "o" "n" "main" "messages", RegistryOp.add "o" "n" "dev" "messages"]
    (by decide) ⟨[], [], [], 1, 1, 1⟩ "o" "n" (by decide)

/-! Claim C1. -/

/-- C1, counterexample: the claim says a second replication of message 1 to the
same target must update `messages/message_1.json` in place using the remote's
current revision token. In fact the second `store_message` call leaves the
remote completely unchanged: the file still holds the first call's envelope
(stamped T1, not the second call's distinct T2 envelope) at revision 0, the
head commit does not advance, and the returned map is empty. -/
theorem c1_counterexample :
    (store_message [(cfg0, rem0)] "hi" 1 "T1").1 = [(cfg0, rem_filled)] ∧
    store_message [(cfg0, rem_filled)] "hi" 1 "T2" = ([(cfg0, rem_filled)], []) ∧
    rem_filled.files.lookup (message_file_path cfg0 1) = some ⟨mk_envelope "hi" 1 "T1", 0⟩ ∧
    mk_envelope "hi" 1 "T2" ≠ mk_envelope "hi" 1 "T1" := by
  decide

/-- C1, amended: replicating the same message id to the same target twice does
not create a second file and does not blindly overwrite, but neither does it
update the file in place: whenever the deterministic path already holds a file,
the engine's `create_file` call fails, the exception is caught, the remote is
left unchanged (same files, same revisions, same head), and the target is
absent from the returned commit map. -/
theorem c1_theorem (c : RepoConfig) (r : Remote) (content : String) (id : Nat)
    (now : String) (f : RemoteFile)
    (h : r.files.lookup (message_file_path c id) = some f) :
    store_to_target c r content id now = (r, none) := by
  unfold store_to_target Remote.create_file
  cases hok : r.ok with
  | false => simp
  | true => simp [h]

/-- C1, witness: the amended theorem applied to the concrete remote that
already holds message 1. -/
theorem c1_witness : store_to_target cfg0 rem_filled "hi" 1 "T2" = (rem_filled, none) :=
  c1_theorem cfg0 rem_filled "hi" 1 "T2" ⟨⟨1, "hi", "T1"⟩, 0⟩ (by decide)

/-! Claim C2. -/

/-- C2: per-target failures during fan-out are isolated. Every target whose own
store step succeeds with sha `sha` contributes `(key, sha)` to the returned
map; every map entry comes from a succeeding target (so a failed target is
simply absent); and each target's final remote state is exactly its own store
step's result, independent of every other target's outcome — no failure aborts
the rest of the fan-out, and the function is total (no exception escapes). -/
theorem c2_theorem (ts : List (RepoConfig × Remote)) (content : String) (id : Nat)
    (now : String) :
    (∀ c r, (c, r) ∈ ts → ∀ sha, (store_to_target c r content id now).2 = some sha →
        (c.key, sha) ∈ (store_message ts content id now).2) ∧
    (∀ e ∈ (store_message ts content id now).2,
        ∃ c r, (c, r) ∈ ts ∧ e.1 = c.key ∧
          (store_to_target c r content id now).2 = some e.2) ∧
    (store_message ts content id now).1
      = ts.map (fun p => (p.1, (store_to_target p.1 p.2 content id now).1)) := by
  induction ts with
  | nil =>
    refine ⟨?_, ?_, rfl⟩
    · intro c r hc
      simp at hc
    · intro e he
      simp [store_message] at he
  | cons p ts ih =>
    obtain ⟨c0, r0⟩ := p
    obtain ⟨ih1, ih2, ih3⟩ := ih
    refine ⟨?_, ?_, ?_⟩
    · intro c r hmem sha hs
      rcases List.mem_cons.mp hmem with hhead | htail
      · obtain ⟨hc, hr⟩ := Prod.mk.injEq .. ▸ hhead
        subst hc; subst hr
        simp only [store_message]
        rw [hs]
        exact List.mem_cons_self _ _
      · have hmem2 := ih1 c r htail sha hs
        simp only [store_message]
        cases hpr : (store_to_target c0 r0 content id now).2 with
        | none => simpa [hpr] using hmem2
        | some sha0 => simp only [hpr]; exact List.mem_cons_of_mem _ hmem2
    · intro e he
      simp only [store_message] at he
      cases hpr : (store_to_target c0 r0 content id now).2 with
      | none =>
        rw [hpr] at he
        obtain ⟨c, r, hm, hk, hsha⟩ := ih2 e he
        exact ⟨c, r, List.mem_cons_of_mem _ hm, hk, hsha⟩
      | some sha0 =>
        rw [hpr] at he
        rcases List.mem_cons.mp he with hhead | htail
        · refine ⟨c0, r0, List.mem_cons_self _ _, ?_, ?_⟩
          · rw [hhead]
          · rw [hhead, hpr]
        · obtain ⟨c, r, hm, hk, hsha⟩ := ih2 e htail
          exact ⟨c, r, List.mem_cons_of_mem _ hm, hk, hsha⟩
    · simp only [store_message, List.map_cons]
      rw [ih3]

/-- C2, witness: concrete fan-out in which the first target is unreachable and
the second succeeds; the second target's hash is in the returned map. -/
theorem c2_witness :
    (cfg1.key, "1") ∈ (store_message [(cfg0, rem_bad), (cfg1, rem0)] "hi" 1 "T").2 :=
  (c2_theorem [(cfg0, rem_bad), (cfg1, rem0)] "hi" 1 "T").1 cfg1 rem0 (by decide) "1"
    (by decide)

/-! Lemmas about the grouping loop of `get_messages`. -/

theorem hdr_id {a b : MessageOut} (h : hdr a = hdr b) : a.id = b.id :=
  congrArg Prod.fst h

theorem hdr_ts {a b : MessageOut} (h : hdr a = hdr b) : a.timestamp = b.timestamp :=
  congrArg (fun x => x.2.1) h

theorem hdr_content {a b : MessageOut} (h : hdr a = hdr b) : a.content = b.content :=
  congrArg (fun x => x.2.2) h

theorem rhdr_id {a : MessageOut} {i : Nat} {t c : String} (h : hdr a = (i, t, c)) :
    a.id = i := congrArg Prod.fst h

theorem rhdr_ts {a : MessageOut} {i : Nat} {t c : String} (h : hdr a = (i, t, c)) :
    a.timestamp = t := congrArg (fun x => x.2.1) h

theorem rhdr_content {a : MessageOut} {i : Nat} {t c : String} (h : hdr a = (i, t, c)) :
    a.content = c := congrArg (fun x => x.2.2) h

theorem add_repo_entry_hdr (mo : MessageOut) (row : JoinedRow) :
    hdr (add_repo_entry mo row) = hdr mo := by
  unfold add_repo_entry
  rcases row with ⟨rid, rc, rts, rca, ow, nm, ch⟩
  cases ow with
  | none => rfl
  | some o =>
    cases nm with
    | none => rfl
    | some n =>
      cases hoe : (o.isEmpty || n.isEmpty) with
      | true => simp [hoe]
      | false => simp [hoe, hdr]

theorem mo_lt_congr {a a' b b' : MessageOut} (ha : hdr a' = hdr a) (hb : hdr b' = hdr b)
    (h : mo_lt a b) : mo_lt a' b' := by
  unfold mo_lt at *
  rw [hdr_ts ha, hdr_ts hb, hdr_id ha, hdr_id hb]
  exact h

theorem mix_le_congr {mo mo' : MessageOut} {r : JoinedRow} (h : hdr mo' = hdr mo)
    (hx : mix_le mo r) : mix_le mo' r := by
  unfold mix_le at *
  rw [hdr_ts h, hdr_id h]
  exact hx

theorem mix_le_of_row_le {mo' : MessageOut} {r r' : JoinedRow}
    (h : hdr mo' = (r.id, r.timestamp, r.content)) (hr : row_le r r') : mix_le mo' r' := by
  unfold mix_le
  unfold row_le at hr
  rw [rhdr_ts h, rhdr_id h]
  exact hr

theorem mo_lt_of_mix {a new : MessageOut} {r : JoinedRow}
    (hnew : hdr new = (r.id, r.timestamp, r.content)) (hmix : mix_le a r)
    (hne : a.id ≠ r.id) : mo_lt a new := by
  unfold mo_lt
  rw [rhdr_ts hnew, rhdr_id hnew]
  unfold mix_le at hmix
  rcases hmix with h | ⟨he, hle⟩
  · exact Or.inl h
  · exact Or.inr ⟨he, lt_of_le_of_ne hle (fun hh => hne hh.symm)⟩

theorem insert_row_hdrs {acc : List MessageOut} {row : JoinedRow} :
    ∀ mo' ∈ insert_row acc row,
      (∃ mo ∈ acc, hdr mo' = hdr mo) ∨ hdr mo' = (row.id, row.timestamp, row.content) := by
  intro mo' h
  unfold insert_row at h
  split at h
  · obtain ⟨mo, hmem, hfeq⟩ := List.mem_map.mp h
    left
    refine ⟨mo, hmem, ?_⟩
    rw [← hfeq]
    by_cases hb : (mo.id == row.id) = true
    · rw [if_pos hb]; exact add_repo_entry_hdr mo row
    · rw [if_neg hb]
  · rcases List.mem_append.mp h with hl | hr
    · exact Or.inl ⟨mo', hl, rfl⟩
    · right
      rw [List.mem_singleton.mp hr]
      exact add_repo_entry_hdr _ row

theorem insert_row_mem {acc : List MessageOut} {row : JoinedRow} {mo : MessageOut}
    (h : mo ∈ acc) : ∃ mo' ∈ insert_row acc row, hdr mo' = hdr mo := by
  unfold insert_row
  split
  · refine ⟨if mo.id == row.id then add_repo_entry mo row else mo,
      List.mem_map_of_mem _ h, ?_⟩
    by_cases hb : (mo.id == row.id) = true
    · rw [if_pos hb]; exact add_repo_entry_hdr mo row
    · rw [if_neg hb]
  · exact ⟨mo, List.mem_append_left _ h, rfl⟩

theorem insert_row_new_id (acc : List MessageOut) (row : JoinedRow) :
    ∃ mo' ∈ insert_row acc row, mo'.id = row.id := by
  unfold insert_row
  split
  case isTrue hany =>
    obtain ⟨mo, hmem, hbeq⟩ := List.any_eq_true.mp hany
    refine ⟨if mo.id == row.id then add_repo_entry mo row else mo,
      List.mem_map_of_mem _ hmem, ?_⟩
    rw [if_pos hbeq]
    rw [hdr_id (add_repo_entry_hdr mo row)]
    exact beq_iff_eq.mp hbeq
  case isFalse =>
    refine ⟨add_repo_entry ⟨row.id, row.content, row.timestamp, row.created_at, []⟩ row,
      List.mem_append_right _ (List.mem_singleton.mpr rfl), ?_⟩
    exact rhdr_id (add_repo_entry_hdr _ row)

theorem insert_row_length (acc : List MessageOut) (row : JoinedRow) :
    (insert_row acc row).length ≤ acc.length + 1 := by
  unfold insert_row
  split
  · rw [List.length_map]; exact Nat.le_succ _
  · rw [List.length_append]; exact Nat.le_refl _

theorem foldl_insert_length :
    ∀ (rows : List JoinedRow) (acc : List MessageOut),
      (rows.foldl insert_row acc).length ≤ acc.length + rows.length := by
  intro rows
  induction rows with
  | nil => intro acc; simp
  | cons r rows ih =>
    intro acc
    rw [List.foldl_cons]
    have h1 := ih (insert_row acc r)
    have h2 := insert_row_length acc r
    simp only [List.length_cons]
    omega

theorem foldl_insert_complete :
    ∀ (rows : List JoinedRow) (acc : List MessageOut) (i : Nat) (ts cs : String),
      (∀ r_ ∈ rows, r_.id = i → r_.timestamp = ts ∧ r_.content = cs) →
      (∀ mo ∈ acc, mo.id = i → mo.timestamp = ts ∧ mo.content = cs) →
      ((∃ mo ∈ acc, mo.id = i) ∨ ∃ r_ ∈ rows, r_.id = i) →
      ∃ mo ∈ rows.foldl insert_row acc, mo.id = i ∧ mo.timestamp = ts ∧ mo.content = cs := by
  intro rows
  induction rows with
  | nil =>
    intro acc i ts cs _ hacc hpres
    rcases hpres with ⟨mo, hm, hid⟩ | ⟨r_, hr, -⟩
    · obtain ⟨h1, h2⟩ := hacc mo hm hid
      exact ⟨mo, hm, hid, h1, h2⟩
    · exact absurd hr (List.not_mem_nil r_)
  | cons r rows ih =>
    intro acc i ts cs hrows hacc hpres
    rw [List.foldl_cons]
    apply ih (insert_row acc r) i ts cs
    · intro r_ hr_
      exact hrows r_ (List.mem_cons_of_mem _ hr_)
    · intro mo' hmo' hid'
      rcases insert_row_hdrs mo' hmo' with ⟨mo, hm, hh⟩ | hh
      · have hid_mo : mo.id = i := (hdr_id hh).symm.trans hid'
        obtain ⟨h1, h2⟩ := hacc mo hm hid_mo
        exact ⟨(hdr_ts hh).trans h1, (hdr_content hh).trans h2⟩
      · have hid_r : r.id = i := (rhdr_id hh).symm.trans hid'
        obtain ⟨h1, h2⟩ := hrows r (List.mem_cons_self r rows) hid_r
        exact ⟨(rhdr_ts hh).trans h1, (rhdr_content hh).trans h2⟩
    · rcases hpres with ⟨mo, hm, hid⟩ | ⟨r_, hr_, hid⟩
      · obtain ⟨mo', hm', hh⟩ := insert_row_mem hm
        exact Or.inl ⟨mo', hm', (hdr_id hh).trans hid⟩
      · rcases List.mem_cons.mp hr_ with hhead | htail
        · obtain ⟨mo', hm', hid'⟩ := insert_row_new_id acc r
          exact Or.inl ⟨mo', hm', hid'.trans (hhead ▸ hid)⟩
        · exact Or.inr ⟨r_, htail, hid⟩

theorem group_rows_complete {rows : List JoinedRow} {i : Nat} {ts cs : String}
    (hrows : ∀ r_ ∈ rows, r_.id = i → r_.timestamp = ts ∧ r_.content = cs)
    (hex : ∃ r_ ∈ rows, r_.id = i) :
    ∃ mo ∈ group_rows rows, mo.id = i ∧ mo.timestamp = ts ∧ mo.content = cs := by
  apply foldl_insert_complete rows [] i ts cs hrows
  · intro mo hm
    exact absurd hm (List.not_mem_nil mo)
  · exact Or.inr hex

theorem foldl_insert_sorted :
    ∀ (rows : List JoinedRow) (acc : List MessageOut),
      rows.Pairwise row_le → acc.Pairwise mo_lt →
      (∀ mo ∈ acc, ∀ r_ ∈ rows, mix_le mo r_) →
      (rows.foldl insert_row acc).Pairwise mo_lt := by
  intro rows
  induction rows with
  | nil =>
    intro acc _ hacc _
    exact hacc
  | cons r rows ih =>
    intro acc hrows hacc hmix
    rw [List.foldl_cons]
    have hhead : ∀ x ∈ rows, row_le r x := fun x hx => List.rel_of_pairwise_cons hrows hx
    apply ih (insert_row acc r) hrows.of_cons
    · unfold insert_row
      split
      case isTrue hany =>
        have hf : ∀ mo : MessageOut,
            hdr (if mo.id == r.id then add_repo_entry mo r else mo) = hdr mo := by
          intro mo
          by_cases hb : (mo.id == r.id) = true
          · rw [if_pos hb]; exact add_repo_entry_hdr mo r
          · rw [if_neg hb]
        exact hacc.map _ (fun a b hab => mo_lt_congr (hf a) (hf b) hab)
      case isFalse hany =>
        rw [List.pairwise_append]
        refine ⟨hacc, List.pairwise_singleton .., ?_⟩
        intro a ha b hb
        rw [List.mem_singleton.mp hb]
        have hne : a.id ≠ r.id := by
          have hfalse : (acc.any (fun mo => mo.id == r.id)) = false := by
            cases hx : acc.any (fun mo => mo.id == r.id) with
            | false => rfl
            | true => exact absurd hx hany
          intro heq
          exact (List.any_eq_false.mp hfalse a ha) (beq_iff_eq.mpr heq)
        exact mo_lt_of_mix (add_repo_entry_hdr _ r)
          (hmix a ha r (List.mem_cons_self r rows)) hne
    · intro mo' hmo' r_ hr_
      rcases insert_row_hdrs mo' hmo' with ⟨mo, hm, hh⟩ | hh
      · exact mix_le_congr hh (hmix mo hm r_ (List.mem_cons_of_mem _ hr_))
      · exact mix_le_of_row_le hh (hhead r_ hr_)

/-! Lemmas about the joined row stream of `get_messages`. -/

theorem rows_for_message_fields {db : ChatDatabase} {m : MessageRow} :
    ∀ r_ ∈ rows_for_message db m,
      r_.id = m.id ∧ r_.timestamp = m.timestamp ∧ r_.content = m.content := by
  intro r_ hr
  unfold rows_for_message at hr
  split at hr
  · rw [List.mem_singleton.mp hr]
    exact ⟨rfl, rfl, rfl⟩
  · obtain ⟨c, -, hc⟩ := List.mem_map.mp hr
    rw [← hc]
    split
    · exact ⟨rfl, rfl, rfl⟩
    · exact ⟨rfl, rfl, rfl⟩

theorem rows_for_message_ne_nil (db : ChatDatabase) (m : MessageRow) :
    rows_for_message db m ≠ [] := by
  unfold rows_for_message
  cases hf : db.message_commits.filter (fun c => c.message_id == m.id) with
  | nil => simp
  | cons c cs => simp

theorem flatMap_rows_pairwise (db : ChatDatabase) :
    ∀ l : List MessageRow, l.Pairwise msg_order →
      (l.flatMap (rows_for_message db)).Pairwise row_le := by
  intro l
  induction l with
  | nil => intro _; simp
  | cons m l ih =>
    intro hp
    rw [List.flatMap_cons, List.pairwise_append]
    refine ⟨?_, ih hp.of_cons, ?_⟩
    · apply List.pairwise_of_forall_mem_list
      intro a ha b hb
      obtain ⟨ha1, ha2, -⟩ := rows_for_message_fields a ha
      obtain ⟨hb1, hb2, -⟩ := rows_for_message_fields b hb
      unfold row_le
      exact Or.inr ⟨by rw [ha2, hb2], by rw [ha1, hb1]⟩
    · intro a ha b hb
      obtain ⟨m', hm', hbm⟩ := List.mem_flatMap.mp hb
      have hmo : msg_order m m' := List.rel_of_pairwise_cons hp hm'
      obtain ⟨ha1, ha2, -⟩ := rows_for_message_fields a ha
      obtain ⟨hb1, hb2, -⟩ := rows_for_message_fields b hbm
      unfold row_le
      unfold msg_order at hmo
      rw [ha2, hb2, ha1, hb1]
      exact hmo

theorem joined_rows_pairwise (db : ChatDatabase) : (joined_rows db).Pairwise row_le :=
  flatMap_rows_pairwise db (sorted_messages db)
    (List.sorted_insertionSort msg_order db.messages)

theorem paged_rows_pairwise (db : ChatDatabase) (limit offset : Nat) :
    (paged_rows db limit offset).Pairwise row_le := by
  unfold paged_rows
  exact List.Pairwise.sublist
    (List.Sublist.trans (List.take_sublist _ _) (List.drop_sublist _ _))
    (joined_rows_pairwise db)

/-! Claims C3 and C9. -/

/-- C3: `get_messages` emits messages ordered by the message's own timestamp
descending with ties broken by id descending, for every database and page;
concretely, timestamps T1 < T2 < T3 inserted in creation order T2, T1, T3 come
back as [T3, T2, T1], and two messages sharing a timestamp come back newest id
first. -/
theorem c3_theorem (db : ChatDatabase) (limit offset : Nat) :
    (db.get_messages limit offset).Pairwise mo_lt ∧
    (db3.get_messages 100 0).map (fun mo => mo.timestamp) = ["T3", "T2", "T1"] ∧
    (tieDb.get_messages 100 0).map (fun mo => mo.id) = [2, 1, 3] := by
  refine ⟨?_, by decide, by decide⟩
  unfold ChatDatabase.get_messages group_rows
  apply foldl_insert_sorted _ [] (paged_rows_pairwise db limit offset) List.Pairwise.nil
  intro mo hm
  exact absurd hm (List.not_mem_nil mo)

/-- C3, witness: the sortedness part at a concrete database. -/
theorem c3_witness : (exDb.get_messages 100 0).Pairwise mo_lt :=
  (c3_theorem exDb 100 0).1

/-- C9: LIMIT/OFFSET act on the joined rows before grouping. The result never
holds more than `limit` messages; but in `exDb` (two messages, the newer one
mirrored twice) a call with limit 2 returns a single message even though two
exist, and a call with limit 1 returns the newest message with its
repositories map truncated to the single row that fit. -/
theorem c9_theorem :
    (∀ (db : ChatDatabase) (limit offset : Nat),
        (db.get_messages limit offset).length ≤ limit) ∧
    (exDb.messages.length = 2 ∧ (exDb.get_messages 2 0).length = 1) ∧
    exDb.get_messages 1 0 = [⟨2, "m2", "TB", "CB", [("alpha/one", "h1")]⟩] ∧
    exDb.get_messages 2 0
      = [⟨2, "m2", "TB", "CB", [("alpha/one", "h1"), ("beta/two", "h2")]⟩] := by
  refine ⟨?_, by decide, by decide, by decide⟩
  intro db limit offset
  unfold ChatDatabase.get_messages group_rows
  have h1 := foldl_insert_length (paged_rows db limit offset) []
  have h2 : (paged_rows db limit offset).length ≤ limit := by
    unfold paged_rows
    rw [List.length_take]
    exact min_le_left _ _
  simp only [List.length_nil] at h1
  omega

/-- C9, witness: the row-limit bound at a concrete call. -/
theorem c9_witness : (exDb.get_messages 2 0).length ≤ 2 :=
  c9_theorem.1 exDb 2 0

/-! Claim C6. -/

/-- C6: the remote-merge read mode returns the union of all registered
repositories' envelopes sorted ascending by the envelope timestamp, each
tagged with its source repository as "owner/name"; it takes no database at all,
so it never touches the local ledger. Concretely, repo R1 holding [T1, T3] and
repo R2 holding [T2] merge to [T1, T2, T3] with the matching repository tags. -/
theorem c6_theorem (ts : List (RepoConfig × Remote)) :
    (get_all_messages ts).Pairwise fm_le ∧
    (get_all_messages ts).Perm (ts.flatMap (fun p => fetch_messages_from_repo p.1 p.2)) ∧
    (∀ m ∈ get_all_messages ts, ∃ cfg r, (cfg, r) ∈ ts ∧ m.repository = cfg.key ∧
        ∃ pf ∈ r.files, pf.2.env = ⟨m.id, m.content, m.timestamp⟩) ∧
    (get_all_messages [(cfg0, rem1), (cfg1, rem2)]).map (fun m => m.timestamp)
        = ["T1", "T2", "T3"] ∧
    (get_all_messages [(cfg0, rem1), (cfg1, rem2)]).map (fun m => m.repository)
        = ["alpha/one", "beta/two", "alpha/one"] := by
  refine ⟨List.sorted_insertionSort fm_le _, List.perm_insertionSort fm_le _, ?_,
    by decide, by decide⟩
  intro m hm
  have hm' : m ∈ ts.flatMap (fun p => fetch_messages_from_repo p.1 p.2) :=
    (List.perm_insertionSort fm_le _).mem_iff.mp hm
  obtain ⟨p, hp, hmf⟩ := List.mem_flatMap.mp hm'
  refine ⟨p.1, p.2, hp, ?_⟩
  unfold fetch_messages_from_repo at hmf
  split at hmf
  · obtain ⟨pf, hpf, heq⟩ := List.mem_map.mp hmf
    have hpfmem : pf ∈ p.2.files := (List.mem_filter.mp hpf).1
    subst heq
    exact ⟨rfl, pf, hpfmem, rfl⟩
  · exact absurd hmf (List.not_mem_nil m)

/-- C6, witness: the sortedness part at the concrete two-repository registry. -/
theorem c6_witness : (get_all_messages [(cfg0, rem1), (cfg1, rem2)]).Pairwise fm_le :=
  (c6_theorem [(cfg0, rem1), (cfg1, rem2)]).1

/-! Lemmas about `handle_new_message`. -/

theorem handle_new_message_messages {st : ServerState} {c tDb tCreated tRepl : String}
    (hc : isBlank c = false) :
    (handle_new_message st (some c) tDb tCreated tRepl).1.db.messages
      = st.db.messages ++ [⟨st.db.next_message_id, c, tDb, tCreated⟩] := by
  simp only [handle_new_message, hc, Bool.false_eq_true, if_false]
  cases hemp : (store_message st.targets c (st.db.add_message c tDb tCreated).2 tRepl).2.isEmpty with
  | true => simp [hemp, ChatDatabase.add_message]
  | false =>
    simp only [hemp, Bool.false_eq_true, if_false]
    cases hupd : (st.db.add_message c tDb tCreated).1.update_message_commits
        (st.db.add_message c tDb tCreated).2
        (store_message st.targets c (st.db.add_message c tDb tCreated).2 tRepl).2 with
    | ok db2 =>
      simp only [hupd]
      rw [(update_message_commits_fields hupd).1]
      simp [ChatDatabase.add_message]
    | error e => simp [hupd, ChatDatabase.add_message]

theorem handle_new_message_not_bad {st : ServerState} {c tDb tCreated tRepl : String}
    (hc : isBlank c = false) :
    ∀ msg, (handle_new_message st (some c) tDb tCreated tRepl).2 ≠ .badRequest msg := by
  intro msg
  simp only [handle_new_message, hc, Bool.false_eq_true, if_false]
  cases hemp : (store_message st.targets c (st.db.add_message c tDb tCreated).2 tRepl).2.isEmpty with
  | true => simp [hemp]
  | false =>
    simp only [hemp, Bool.false_eq_true, if_false]
    cases hupd : (st.db.add_message c tDb tCreated).1.update_message_commits
        (st.db.add_message c tDb tCreated).2
        (store_message st.targets c (st.db.add_message c tDb tCreated).2 tRepl).2 with
    | ok db2 => simp [hupd]
    | error e => simp [hupd]

/-! Claim C7. -/

/-- C7: validation of message content. A missing content field and a content
that is empty or whitespace-only are rejected with the validation error,
leaving the entire server state (local store and remotes) untouched, so no
message is inserted and no replication is attempted; for every non-blank
content validation passes: the message is appended to the local store and the
response is never the validation error. -/
theorem c7_theorem (st : ServerState) (tDb tCreated tRepl : String) :
    handle_new_message st none tDb tCreated tRepl
        = (st, .badRequest "Message content is required") ∧
    (∀ c, isBlank c = true →
        handle_new_message st (some c) tDb tCreated tRepl
          = (st, .badRequest "Message content is required")) ∧
    (∀ c, isBlank c = false →
        (handle_new_message st (some c) tDb tCreated tRepl).1.db.messages
            = st.db.messages ++ [⟨st.db.next_message_id, c, tDb, tCreated⟩] ∧
        ∀ msg, (handle_new_message st (some c) tDb tCreated tRepl).2 ≠ .badRequest msg) := by
  refine ⟨rfl, ?_, ?_⟩
  · intro c hb
    simp [handle_new_message, hb]
  · intro c hb
    exact ⟨handle_new_message_messages hb, handle_new_message_not_bad hb⟩

/-- C7, witness: a whitespace-only content is rejected with the server state
untouched. -/
theorem c7_witness :
    handle_new_message st1 (some " ") "TD" "TC" "TR"
      = (st1, .badRequest "Message content is required") :=
  (c7_theorem st1 "TD" "TC" "TR").2.1 " " (by decide)

/-! Claim C4. -/

/-- C4: with zero registered targets replication returns the empty map without
error, and a non-blank message is still created: the response is success with
an empty commit map, and the message appears in the local feed with its
content and timestamp. -/
theorem c4_theorem (db : ChatDatabase) (c tDb tCreated tRepl : String)
    (hWF : dbWF db) (hc : isBlank c = false) :
    store_message [] c db.next_message_id tRepl = ([], []) ∧
    (handle_new_message ⟨db, []⟩ (some c) tDb tCreated tRepl).2
        = .created db.next_message_id c tDb [] ∧
    ∃ mo ∈ (handle_new_message ⟨db, []⟩ (some c) tDb tCreated tRepl).1.db.get_messages
        (joined_rows (handle_new_message ⟨db, []⟩ (some c) tDb tCreated tRepl).1.db).length 0,
      mo.id = db.next_message_id ∧ mo.timestamp = tDb ∧ mo.content = c := by
  have hres : handle_new_message ⟨db, []⟩ (some c) tDb tCreated tRepl
      = (⟨(db.add_message c tDb tCreated).1, []⟩, .created db.next_message_id c tDb []) := by
    simp [handle_new_message, hc, store_message, ChatDatabase.add_message]
  refine ⟨rfl, by rw [hres], ?_⟩
  rw [hres]
  have hmsgs : (db.add_message c tDb tCreated).1.messages
      = db.messages ++ [⟨db.next_message_id, c, tDb, tCreated⟩] := rfl
  unfold ChatDatabase.get_messages
  have hpaged : paged_rows (db.add_message c tDb tCreated).1
      (joined_rows (db.add_message c tDb tCreated).1).length 0
      = joined_rows (db.add_message c tDb tCreated).1 := by
    unfold paged_rows
    rw [List.drop_zero, List.take_length]
  rw [hpaged]
  apply group_rows_complete
  · intro r_ hr_ hid
    unfold joined_rows at hr_
    obtain ⟨m', hm', hrm⟩ := List.mem_flatMap.mp hr_
    obtain ⟨f1, f2, f3⟩ := rows_for_message_fields r_ hrm
    have hmid : m'.id = db.next_message_id := by rw [← f1]; exact hid
    have hm'mem : m' ∈ (db.add_message c tDb tCreated).1.messages :=
      ((List.perm_insertionSort msg_order _).mem_iff).mp hm'
    rw [hmsgs] at hm'mem
    rcases List.mem_append.mp hm'mem with hold | hnew
    · exact absurd hmid (Nat.ne_of_lt (hWF.2 m' hold))
    · have hm'eq : m' = ⟨db.next_message_id, c, tDb, tCreated⟩ := List.mem_singleton.mp hnew
      exact ⟨by rw [f2, hm'eq], by rw [f3, hm'eq]⟩
  · have hnewmem : (⟨db.next_message_id, c, tDb, tCreated⟩ : MessageRow)
        ∈ (db.add_message c tDb tCreated).1.messages := by
      rw [hmsgs]
      exact List.mem_append_right _ (List.mem_singleton.mpr rfl)
    have hsmem : (⟨db.next_message_id, c, tDb, tCreated⟩ : MessageRow)
        ∈ sorted_messages (db.add_message c tDb tCreated).1 :=
      ((List.perm_insertionSort msg_order _).mem_iff).mpr hnewmem
    obtain ⟨r_, hr_⟩ := List.exists_mem_of_ne_nil _
      (rows_for_message_ne_nil (db.add_message c tDb tCreated).1
        ⟨db.next_message_id, c, tDb, tCreated⟩)
    refine ⟨r_, ?_, ?_⟩
    · unfold joined_rows
      exact List.mem_flatMap.mpr ⟨_, hsmem, hr_⟩
    · exact (rows_for_message_fields r_ hr_).1

/-- C4, witness: creating "hello" on an empty database with zero targets. -/
theorem c4_witness :
    (handle_new_message ⟨⟨[], [], [], 1, 1, 1⟩, []⟩ (some "hello") "TD" "TC" "TR").2
      = .created (⟨[], [], [], 1, 1, 1⟩ : ChatDatabase).next_message_id "hello" "TD" [] :=
  (c4_theorem ⟨[], [], [], 1, 1, 1⟩ "hello" "TD" "TC" "TR" (by decide) (by decide)).2.1

/-! Claim C10. -/

/-- C10: the mirrored envelope is stamped with the replication-time clock, not
with the timestamp persisted in the local store. After a successful
`handle_new_message`, the stored message carries `tDb` while every envelope a
succeeding target received carries `tRepl`; when the two clock readings differ
the mirrored timestamp differs from the stored one, and two replications of the
same (content, id) at different clock readings write different file contents. -/
theorem c10_theorem (st : ServerState) (c tDb tCreated tRepl : String)
    (hc : isBlank c = false) (hclock : tDb ≠ tRepl) :
    (∃ m ∈ (handle_new_message st (some c) tDb tCreated tRepl).1.db.messages,
        m.id = st.db.next_message_id ∧ m.content = c ∧ m.timestamp = tDb) ∧
    (∀ cfg r r' sha, (cfg, r) ∈ st.targets →
        store_to_target cfg r c st.db.next_message_id tRepl = (r', some sha) →
        r'.files.lookup (message_file_path cfg st.db.next_message_id)
            = some ⟨mk_envelope c st.db.next_message_id tRepl, 0⟩ ∧
          (mk_envelope c st.db.next_message_id tRepl).timestamp ≠ tDb) ∧
    (∀ t1 t2 : String, t1 ≠ t2 →
        mk_envelope c st.db.next_message_id t1 ≠ mk_envelope c st.db.next_message_id t2) := by
  refine ⟨?_, ?_, ?_⟩
  · rw [handle_new_message_messages hc]
    exact ⟨⟨st.db.next_message_id, c, tDb, tCreated⟩,
      List.mem_append_right _ (List.mem_singleton.mpr rfl), rfl, rfl, rfl⟩
  · intro cfg r r' sha hmem hst
    obtain ⟨hl, hr', -⟩ := store_to_target_ok hst
    subst hr'
    exact ⟨lookup_append_none _ hl, Ne.symm hclock⟩
  · intro t1 t2 h12 heq
    exact h12 (congrArg Envelope.timestamp heq)

/-- C10, witness: the theorem applied at a concrete server state with one
reachable target and distinct clock readings. -/
theorem c10_witness :
    ∃ m ∈ (handle_new_message st1 (some "hi") "TD" "TC" "TR").1.db.messages,
      m.id = st1.db.next_message_id ∧ m.content = "hi" ∧ m.timestamp = "TD" :=
  (c10_theorem st1 "hi" "TD" "TC" "TR" (by decide) (by decide)).1

end IAPchat
